import Mathlib

/-
Verification of the OpenSubtitles scraper core: the search-result
filtering/ranking engine and the subtitle-extraction pipeline.

Python strings are modelled as lists of characters (`List Char`); the
regex character classes `\w` and `\s` and Python's `str.lower()` are
modelled on their ASCII fragment (the repository only compares ASCII
titles, language tags and filenames).  Python floats arising in
relevance scores are modelled as exact rationals.
-/

namespace OpenSubs

/-! ## Character utilities (src/utils/helpers.py, regex character classes) -/

/-- Python regex whitespace class `\s` (ASCII fragment): space, tab,
line feed, carriage return, vertical tab, form feed. -/
def pyIsSpace (c : Char) : Bool :=
  c == ' ' || c == '\t' || c == '\n' || c == '\r' || c == '\x0b' || c == '\x0c'

/-- Python regex word class `\w` (ASCII fragment): letters, digits and the
underscore. -/
def pyIsWord (c : Char) : Bool :=
  (decide ('a' ≤ c) && decide (c ≤ 'z')) ||
  (decide ('A' ≤ c) && decide (c ≤ 'Z')) ||
  (decide ('0' ≤ c) && decide (c ≤ '9')) ||
  c == '_'

/-- Python `str.lower()` on a single character (ASCII fragment). -/
def pyToLower (c : Char) : Char :=
  if 'A' ≤ c ∧ c ≤ 'Z' then Char.ofNat (c.toNat + 32) else c

/-- Python `str.lower()` over a whole string. -/
def lowerL (l : List Char) : List Char :=
  l.map pyToLower

/-- One pass of `re.sub(r'\s+', ' ', _)`: the flag records whether the
previously consumed character belonged to a whitespace run. -/
def collapseAux : List Char → Bool → List Char
  | [], _ => []
  | c :: cs, prevSpace =>
    if pyIsSpace c then
      if prevSpace then collapseAux cs true else ' ' :: collapseAux cs true
    else
      c :: collapseAux cs false

/-- `re.sub(r'\s+', ' ', l)`: collapse every whitespace run to one space. -/
def collapseWs (l : List Char) : List Char :=
  collapseAux l false

/-- Remove trailing whitespace (the right half of Python `str.strip()`). -/
def stripRight : List Char → List Char
  | [] => []
  | c :: cs =>
    let r := stripRight cs
    if r.isEmpty && pyIsSpace c then [] else c :: r

/-- Python `str.strip()`: drop leading and trailing whitespace. -/
def pyStrip (l : List Char) : List Char :=
  stripRight (l.dropWhile pyIsSpace)

/-- `normalize_title` (src/utils/helpers.py:33): lowercase, replace every
character outside `\w` and `\s` with a space, collapse whitespace runs,
strip. -/
def normalize_title (title : List Char) : List Char :=
  let t1 := lowerL title
  let t2 := t1.map (fun c => if pyIsWord c || pyIsSpace c then c else ' ')
  pyStrip (collapseWs t2)

/-- Python `str.split()` with no separator: whitespace-delimited words,
no empty tokens.  The accumulator holds the current word reversed. -/
def splitWsAux : List Char → List Char → List (List Char)
  | [], acc => if acc.isEmpty then [] else [acc.reverse]
  | c :: cs, acc =>
    if pyIsSpace c then
      if acc.isEmpty then splitWsAux cs [] else acc.reverse :: splitWsAux cs []
    else
      splitWsAux cs (c :: acc)

/-- Python `str.split()` (whitespace mode). -/
def pySplitWs (l : List Char) : List (List Char) :=
  splitWsAux l []

/-- Python substring test `needle in haystack`. -/
def isSubstr (needle : List Char) : List Char → Bool
  | [] => needle.isEmpty
  | c :: cs => needle.isPrefixOf (c :: cs) || isSubstr needle cs

/-- Python `str.endswith`. -/
def endsWithL (suffix : List Char) (l : List Char) : Bool :=
  suffix.reverse.isPrefixOf l.reverse

/-- No two adjacent space characters (used to state the canonical shape
of `normalize_title` output). -/
def noDoubleSpace : List Char → Bool
  | c1 :: c2 :: rest => !(c1 == ' ' && c2 == ' ') && noDoubleSpace (c2 :: rest)
  | _ => true

/-! ## Search results and the ranking engine (src/core/scraper.py) -/

/-- `SearchResult` (src/parsers/search_parser.py:14).  The
`relevance_score` attribute does not exist until `_filter_search_results`
sets it; the sort reads it through `getattr(x, 'relevance_score', 0)`, so
an absent attribute behaves as `0`, which is the model's default. -/
structure SearchResult where
  title : List Char
  year : Option Int := none
  imdb_id : Option (List Char) := none
  url : Option (List Char) := none
  subtitle_count : Nat := 0
  kind : List Char := "movie".toList
  relevance_score : ℚ := 0
deriving DecidableEq, Repr

/-- Truthiness of an optional Python string: `None` and `""` are falsy. -/
def optStrTruthy : Option (List Char) → Bool
  | none => false
  | some s => !s.isEmpty

/-- Truthiness of an optional Python int: `None` and `0` are falsy. -/
def optIntTruthy : Option Int → Bool
  | none => false
  | some n => n != 0

/-- The `kind` filter of `_filter_search_results`:
`if kind and result.kind != kind: continue`. -/
def passKind (r : SearchResult) (kind : Option (List Char)) : Bool :=
  !(optStrTruthy kind && (some r.kind != kind))

/-- The external-id filter of `_filter_search_results`:
`if imdb_id and result.imdb_id and result.imdb_id != imdb_id: continue`. -/
def passImdb (r : SearchResult) (imdb_id : Option (List Char)) : Bool :=
  !(optStrTruthy imdb_id && optStrTruthy r.imdb_id && (r.imdb_id != imdb_id))

/-- The year filter of `_filter_search_results`: when both years are
truthy, drop the candidate if they differ by more than one. -/
def passYear (r : SearchResult) (year : Option Int) : Bool :=
  !(optIntTruthy year && optIntTruthy r.year &&
    decide (1 < ((r.year.getD 0) - (year.getD 0)).natAbs))

/-- A candidate survives the kind/external-id/year filters of
`_filter_search_results`. -/
def survives (r : SearchResult) (year : Option Int)
    (imdb_id kind : Option (List Char)) : Bool :=
  passKind r kind && passImdb r imdb_id && passYear r year

/-- The base relevance score of `_filter_search_results`
(src/core/scraper.py:289-301): 100 on exact normalized match, 80 on
substring containment either way, otherwise Jaccard word overlap × 60
(0 when the union is empty). -/
def baseScore (normalized_title normalized_query : List Char) : ℚ :=
  if normalized_title = normalized_query then 100
  else if isSubstr normalized_query normalized_title ||
          isSubstr normalized_title normalized_query then 80
  else
    let query_words := (pySplitWs normalized_query).toFinset
    let title_words := (pySplitWs normalized_title).toFinset
    let overlap := (query_words ∩ title_words).card
    let total_words := (query_words ∪ title_words).card
    if 0 < total_words then ((overlap : ℚ) / (total_words : ℚ)) * 60 else 0

/-- The full relevance score of `_filter_search_results`: base score,
`+10` when `year and result.year == year`, `+20` when
`imdb_id and result.imdb_id == imdb_id` (Python truthiness guards). -/
def computeScore (r : SearchResult) (query : List Char) (year : Option Int)
    (imdb_id : Option (List Char)) : ℚ :=
  baseScore (normalize_title r.title) (normalize_title query)
    + (if optIntTruthy year && (r.year == year) then 10 else 0)
    + (if optStrTruthy imdb_id && (r.imdb_id == imdb_id) then 20 else 0)

/-- The filter/score phase of `_filter_search_results`: survivors are
scored (mutating only `relevance_score`) and kept when the score is at
least 30, in input order. -/
def scoreFilter (query : List Char) (year : Option Int)
    (imdb_id kind : Option (List Char)) (r : SearchResult) :
    Option SearchResult :=
  if survives r year imdb_id kind then
    let s := computeScore r query year imdb_id
    if 30 ≤ s then some { r with relevance_score := s } else none
  else none

/-- Survivors of the filter/score phase, in input order. -/
def rankFiltered (results : List SearchResult) (query : List Char)
    (year : Option Int) (imdb_id kind : Option (List Char)) :
    List SearchResult :=
  results.filterMap (scoreFilter query year imdb_id kind)

/-- Insert a candidate into a list sorted by descending score, after every
element of score `≥` its own (the placement a stable descending sort
gives an element arriving from the left). -/
def insertDesc (r : SearchResult) : List SearchResult → List SearchResult
  | [] => [r]
  | x :: xs =>
    if x.relevance_score ≤ r.relevance_score then r :: x :: xs
    else x :: insertDesc r xs

/-- `list.sort(key=lambda x: ..., reverse=True)` is CPython's stable sort
in descending key order; modelled as a stable insertion sort. -/
def sortDesc (l : List SearchResult) : List SearchResult :=
  l.foldr insertDesc []

/-- `_filter_search_results` (src/core/scraper.py:261-318): filter,
score, threshold at 30, then stable descending sort.  The spec calls this
operation `rank`. -/
def rank (results : List SearchResult) (query : List Char)
    (year : Option Int) (imdb_id kind : Option (List Char)) :
    List SearchResult :=
  if results.isEmpty then []
  else sortDesc (rankFiltered results query year imdb_id kind)

/-- A candidate record without its `relevance_score` field: ranking must
leave every other field unchanged. -/
structure CoreView where
  title : List Char
  year : Option Int
  imdb_id : Option (List Char)
  url : Option (List Char)
  subtitle_count : Nat
  kind : List Char
deriving DecidableEq, Repr

/-- Forget the `relevance_score` of a candidate. -/
def core (r : SearchResult) : CoreView :=
  { title := r.title, year := r.year, imdb_id := r.imdb_id, url := r.url,
    subtitle_count := r.subtitle_count, kind := r.kind }

/-! ## Subtitle records and the language filter (src/core/scraper.py:357-388) -/

/-- `SubtitleInfo` (src/parsers/subtitle_parser.py:15). -/
structure SubtitleInfo where
  subtitle_id : List Char
  language : List Char
  filename : List Char
  release_name : List Char
  uploader : List Char := "unknown".toList
  download_count : Nat := 0
  rating : ℚ := 0
  hearing_impaired : Bool := false
  forced : Bool := false
  fps : Option ℚ := none
  download_url : Option (List Char) := none
  upload_date : Option Nat := none
deriving DecidableEq, Repr

/-- The `lang_mapping` table of `get_subtitles` (src/core/scraper.py:360-375). -/
def lang_mapping : List (List Char × List Char) := [
  ("eng".toList, "en".toList), ("english".toList, "en".toList),
  ("hun".toList, "hu".toList), ("hungarian".toList, "hu".toList),
  ("spa".toList, "es".toList), ("spanish".toList, "es".toList),
  ("fre".toList, "fr".toList), ("french".toList, "fr".toList),
  ("ger".toList, "de".toList), ("german".toList, "de".toList),
  ("ita".toList, "it".toList), ("italian".toList, "it".toList),
  ("por".toList, "pt".toList), ("portuguese".toList, "pt".toList),
  ("rus".toList, "ru".toList), ("russian".toList, "ru".toList),
  ("chi".toList, "zh".toList), ("chinese".toList, "zh".toList),
  ("jpn".toList, "ja".toList), ("japanese".toList, "ja".toList),
  ("kor".toList, "ko".toList), ("korean".toList, "ko".toList),
  ("ara".toList, "ar".toList), ("arabic".toList, "ar".toList),
  ("dut".toList, "nl".toList), ("dutch".toList, "nl".toList),
  ("pol".toList, "pl".toList), ("polish".toList, "pl".toList)]

/-- Python `dict.get(key, default)` over an association list. -/
def dictGet (m : List (List Char × List Char)) (k dflt : List Char) : List Char :=
  match m.find? (fun p => p.1 == k) with
  | some p => p.2
  | none => dflt

/-- The acceptance set built by `get_subtitles`: for every requested
token, both `lang_mapping.get(lang.lower(), lang.lower())` and the
lowercased original are added. -/
def normalizedLangs (languages : List (List Char)) : List (List Char) :=
  languages.foldr
    (fun lang acc =>
      let ll := lowerL lang
      dictGet lang_mapping ll ll :: ll :: acc) []

/-- The language filter of `get_subtitles` (src/core/scraper.py:357-388):
with a non-empty request list, keep a record iff its lowercased
`language` is in the acceptance set; an empty list filters nothing.  The
spec calls this operation `filter_by_language`. -/
def filter_by_language (subtitles : List SubtitleInfo)
    (languages : List (List Char)) : List SubtitleInfo :=
  if languages.isEmpty then subtitles
  else subtitles.filter
    (fun sub => (normalizedLangs languages).contains (lowerL sub.language))

/-! ## Archive payload selection (src/parsers/download_parser.py) -/

/-- One decoded payload of `extract_subtitle_from_zip` (the dicts built
at src/parsers/download_parser.py:181-186). -/
structure ExtractedPayload where
  filename : List Char
  content : List Char
  size : Nat
  encoding : List Char
deriving DecidableEq, Repr

/-- The `DownloadError("No subtitle files found in ZIP archive")` raised
by `extract_subtitle_from_zip`; the spec's `NoSubtitleFound`. -/
inductive DownloadError where
  | noSubtitleFound
deriving DecidableEq, Repr

/-- Python `max(files, key=lambda x: x['size'])`: the first payload of
maximal size. -/
def maxBySize (f : ExtractedPayload) (rest : List ExtractedPayload) :
    ExtractedPayload :=
  rest.foldl (fun acc y => if acc.size < y.size then y else acc) f

/-- The preferred-filename scan of `_select_best_subtitle`: the first
payload whose lowercased filename contains the lowercased preferred
name. -/
def preferredMatch (files : List ExtractedPayload) (p : List Char) :
    Option ExtractedPayload :=
  files.find? (fun sub => isSubstr (lowerL p) (lowerL sub.filename))

/-- `_select_best_subtitle` (src/parsers/download_parser.py:281-301) on a
non-empty payload list `f :: rest`: a single payload is returned as is;
then a truthy preferred filename is matched; then the largest `.srt`
payload wins; otherwise the largest payload overall. -/
def selectBestSubtitle (f : ExtractedPayload) (rest : List ExtractedPayload)
    (preferred_filename : Option (List Char)) : ExtractedPayload :=
  let files := f :: rest
  if rest.isEmpty then f
  else
    let bySize :=
      match files.filter (fun s => endsWithL ".srt".toList (lowerL s.filename)) with
      | s :: ss => maxBySize s ss
      | [] => maxBySize f rest
    match preferred_filename with
    | some p =>
      if p.isEmpty then bySize
      else
        match preferredMatch files p with
        | some sub => sub
        | none => bySize
    | none => bySize

/-- The emptiness guard plus selection step of `extract_subtitle_from_zip`
(src/parsers/download_parser.py:192-196); the spec's `select_best`. -/
def select_best (payloads : List ExtractedPayload)
    (preferred_filename : Option (List Char)) :
    Except DownloadError ExtractedPayload :=
  match payloads with
  | [] => Except.error DownloadError.noSubtitleFound
  | f :: rest => Except.ok (selectBestSubtitle f rest preferred_filename)

/-! ## Subtitle content decoding (src/parsers/download_parser.py:207-257) -/

/-- A byte of the raw subtitle payload. -/
abbrev Byte := Fin 256

/-- A UTF-8 continuation byte, `0x80`-`0xBF`. -/
def isCont (b : Byte) : Bool :=
  0x80 ≤ b.val && b.val ≤ 0xbf

/-- Admissible second byte of a three-byte UTF-8 sequence (excludes
overlong forms and surrogates, as Python's strict `utf-8` codec does). -/
def cont3ok (b0 b1 : Byte) : Bool :=
  if b0.val == 0xe0 then 0xa0 ≤ b1.val && b1.val ≤ 0xbf
  else if b0.val == 0xed then 0x80 ≤ b1.val && b1.val ≤ 0x9f
  else isCont b1

/-- Admissible second byte of a four-byte UTF-8 sequence. -/
def cont4ok (b0 b1 : Byte) : Bool :=
  if b0.val == 0xf0 then 0x90 ≤ b1.val && b1.val ≤ 0xbf
  else if b0.val == 0xf4 then 0x80 ≤ b1.val && b1.val ≤ 0x8f
  else isCont b1

/-- Strict UTF-8 decoding, Python `bytes.decode('utf-8')`: `none` on any
ill-formed input. -/
def utf8Decode : List Byte → Option (List Char)
  | [] => some []
  | b0 :: rest =>
    if b0.val < 0x80 then
      (utf8Decode rest).map (fun cs => Char.ofNat b0.val :: cs)
    else if b0.val < 0xc2 then none
    else if b0.val < 0xe0 then
      match rest with
      | b1 :: rest1 =>
        if isCont b1 then
          (utf8Decode rest1).map
            (fun cs => Char.ofNat ((b0.val - 0xc0) * 0x40 + (b1.val - 0x80)) :: cs)
        else none
      | [] => none
    else if b0.val < 0xf0 then
      match rest with
      | b1 :: b2 :: rest2 =>
        if cont3ok b0 b1 && isCont b2 then
          (utf8Decode rest2).map
            (fun cs => Char.ofNat ((b0.val - 0xe0) * 0x1000 +
              (b1.val - 0x80) * 0x40 + (b2.val - 0x80)) :: cs)
        else none
      | _ => none
    else if b0.val < 0xf5 then
      match rest with
      | b1 :: b2 :: b3 :: rest3 =>
        if cont4ok b0 b1 && isCont b2 && isCont b3 then
          (utf8Decode rest3).map
            (fun cs => Char.ofNat ((b0.val - 0xf0) * 0x40000 +
              (b1.val - 0x80) * 0x1000 + (b2.val - 0x80) * 0x40 +
              (b3.val - 0x80)) :: cs)
        else none
      | _ => none
    else none

/-- Python `bytes.decode('utf-8-sig')`: strip one BOM if present, then
strict UTF-8. -/
def utf8SigDecode : List Byte → Option (List Char)
  | b0 :: b1 :: b2 :: rest =>
    if b0.val == 0xef && b1.val == 0xbb && b2.val == 0xbf then utf8Decode rest
    else utf8Decode (b0 :: b1 :: b2 :: rest)
  | bs => utf8Decode bs

/-- Python `bytes.decode('latin1')` / `'iso-8859-1'`: every byte maps to
the code point of the same value; this decoder never fails. -/
def latin1Decode (bs : List Byte) : Option (List Char) :=
  some (bs.map (fun b => Char.ofNat b.val))

/-- Python `bytes.decode('cp1252')` / `'windows-1252'` for one byte: the
`0x80`-`0x9F` block maps through the Windows-1252 table, five of its
positions being undefined (strict decoding fails there). -/
def cp1252Char (b : Byte) : Option Char :=
  if b.val < 0x80 || 0xa0 ≤ b.val then some (Char.ofNat b.val)
  else match b.val with
    | 0x80 => some (Char.ofNat 0x20ac)
    | 0x82 => some (Char.ofNat 0x201a)
    | 0x83 => some (Char.ofNat 0x0192)
    | 0x84 => some (Char.ofNat 0x201e)
    | 0x85 => some (Char.ofNat 0x2026)
    | 0x86 => some (Char.ofNat 0x2020)
    | 0x87 => some (Char.ofNat 0x2021)
    | 0x88 => some (Char.ofNat 0x02c6)
    | 0x89 => some (Char.ofNat 0x2030)
    | 0x8a => some (Char.ofNat 0x0160)
    | 0x8b => some (Char.ofNat 0x2039)
    | 0x8c => some (Char.ofNat 0x0152)
    | 0x8e => some (Char.ofNat 0x017d)
    | 0x91 => some (Char.ofNat 0x2018)
    | 0x92 => some (Char.ofNat 0x2019)
    | 0x93 => some (Char.ofNat 0x201c)
    | 0x94 => some (Char.ofNat 0x201d)
    | 0x95 => some (Char.ofNat 0x2022)
    | 0x96 => some (Char.ofNat 0x2013)
    | 0x97 => some (Char.ofNat 0x2014)
    | 0x98 => some (Char.ofNat 0x02dc)
    | 0x99 => some (Char.ofNat 0x2122)
    | 0x9a => some (Char.ofNat 0x0161)
    | 0x9b => some (Char.ofNat 0x203a)
    | 0x9c => some (Char.ofNat 0x0153)
    | 0x9e => some (Char.ofNat 0x017e)
    | 0x9f => some (Char.ofNat 0x0178)
    | _ => none

/-- Python `bytes.decode('cp1252')` over a whole byte string. -/
def cp1252Decode (bs : List Byte) : Option (List Char) :=
  bs.mapM cp1252Char

/-- The six encodings tried by `_decode_subtitle_content`
(src/parsers/download_parser.py:209), in source order.  `latin1` and
`iso-8859-1` name the same codec, as do `cp1252` and `windows-1252`. -/
inductive PyEncoding where
  | utf8
  | utf8sig
  | latin1
  | cp1252
  | iso8859_1
  | windows1252
deriving DecidableEq, Repr

/-- Dispatch a codec name to its decoder. -/
def decodeWith : PyEncoding → List Byte → Option (List Char)
  | .utf8 => utf8Decode
  | .utf8sig => utf8SigDecode
  | .latin1 => latin1Decode
  | .cp1252 => cp1252Decode
  | .iso8859_1 => latin1Decode
  | .windows1252 => cp1252Decode

/-- `encodings = ['utf-8', 'utf-8-sig', 'latin1', 'cp1252',
'iso-8859-1', 'windows-1252']`. -/
def encodingChain : List PyEncoding :=
  [.utf8, .utf8sig, .latin1, .cp1252, .iso8859_1, .windows1252]

/-- The decoding loop of `_decode_subtitle_content`: the first encoding
that decodes without error wins. -/
def firstDecode : List PyEncoding → List Byte → Option (List Char)
  | [], _ => none
  | e :: es, bs =>
    match decodeWith e bs with
    | some s => some s
    | none => firstDecode es bs

/-- Python `bytes.decode('utf-8', errors='replace')`: ill-formed input
yields U+FFFD and decoding resynchronises at the following byte.  This
models the fallback branch of `_decode_subtitle_content`, which is
unreachable because latin-1 decoding is total (see
`decode_and_normalize_total`). -/
def utf8ReplaceDecode (bs : List Byte) : List Char :=
  match utf8Decode bs with
  | some cs => cs
  | none =>
    match bs with
    | [] => []
    | _ :: rest => Char.ofNat 0xfffd :: utf8ReplaceDecode rest

/-- `str.replace('\r\n', '\n')`, leftmost-first. -/
def replaceCRLF : List Char → List Char
  | '\r' :: '\n' :: rest => '\n' :: replaceCRLF rest
  | c :: rest => c :: replaceCRLF rest
  | [] => []

/-- `str.split('\n')` (keeps empty pieces); the accumulator holds the
current piece reversed. -/
def splitNLAux : List Char → List Char → List (List Char)
  | [], acc => [acc.reverse]
  | c :: cs, acc =>
    if c == '\n' then acc.reverse :: splitNLAux cs []
    else splitNLAux cs (c :: acc)

/-- `str.split('\n')`. -/
def splitNL (l : List Char) : List (List Char) :=
  splitNLAux l []

/-- Is the most recently appended line non-empty?  (`normalized_lines` is
held in reverse while the loop runs.) -/
def lastNonempty : List (List Char) → Bool
  | a :: _ => !a.isEmpty
  | [] => false

/-- The line-rebuilding loop of `_normalize_subtitle_content`
(src/parsers/download_parser.py:239-245): strip each line, keep every
non-empty line, and keep at most one blank line between blocks (never
before the first kept line). -/
def buildLines : List (List Char) → Nat → List (List Char) → List (List Char)
  | [], _, acc => acc.reverse
  | l :: ls, i, acc =>
    let line := pyStrip l
    if !line.isEmpty then buildLines ls (i + 1) (line :: acc)
    else if 0 < i && lastNonempty acc then buildLines ls (i + 1) ([] :: acc)
    else buildLines ls (i + 1) acc

/-- `_normalize_subtitle_content` (src/parsers/download_parser.py:225-257):
canonicalise line endings, drop a leading BOM, rebuild the line blocks
and end a non-empty result with exactly one newline. -/
def normalizeSubtitleContent (content : List Char) : List Char :=
  let c1 := (replaceCRLF content).map (fun c => if c == '\r' then '\n' else c)
  let c2 := if c1.head? == some '\uFEFF' then c1.tail else c1
  let normalized := buildLines (splitNL c2) 0 []
  let result := List.intercalate ['\n'] normalized
  if !result.isEmpty && result.getLast? != some '\n' then result ++ ['\n']
  else result

/-- `_decode_subtitle_content` (src/parsers/download_parser.py:207-223):
normalise the first successful decode of the encoding chain; if every
encoding failed, force-decode UTF-8 with replacement characters.  The
spec calls the composite `decode_and_normalize`. -/
def decode_and_normalize (bs : List Byte) : List Char :=
  match firstDecode encodingChain bs with
  | some s => normalizeSubtitleContent s
  | none => normalizeSubtitleContent (utf8ReplaceDecode bs)

/-! ## IMDB title lookup cache (src/utils/imdb_lookup.py) -/

/-- One cache value of `IMDBLookupService`: the resolved title and the
`time.time()` at which it was fetched. -/
structure CacheEntry where
  title : List Char
  timestamp : Nat
deriving DecidableEq, Repr

/-- The mutable state of `IMDBLookupService`: the title cache and the
TTL. -/
structure IMDBLookupService where
  cache : List (List Char × CacheEntry)
  cache_ttl : Nat
deriving DecidableEq, Repr

/-- A freshly constructed service (`__init__`): empty cache, one-hour
TTL. -/
def initService : IMDBLookupService :=
  { cache := [], cache_ttl := 3600 }

/-- Python dict read `cache.get(k)`. -/
def cacheGet (m : List (List Char × CacheEntry)) (k : List Char) :
    Option CacheEntry :=
  (m.find? (fun p => p.1 == k)).map (fun p => p.2)

/-- Python dict write `cache[k] = v`. -/
def cacheSet (m : List (List Char × CacheEntry)) (k : List Char)
    (v : CacheEntry) : List (List Char × CacheEntry) :=
  (k, v) :: m.filter (fun p => p.1 != k)

/-- Result of one `lookup_title` call: the returned title, the state
after the call, and whether an external request was made. -/
structure LookupOutcome where
  result : Option (List Char)
  state : IMDBLookupService
  performedLookup : Bool
deriving DecidableEq, Repr

/-- The fetch-and-cache tail of `lookup_title` (imdb_lookup.py:44-70):
a successful extraction is cached at the current time and returned; a
failure (HTTP error or no extraction strategy succeeding) returns `None`
and caches nothing. -/
def lookupFetch (st : IMDBLookupService) (now : Nat) (imdb_id : List Char)
    (fetch : Option (List Char)) : LookupOutcome :=
  match fetch with
  | some title =>
    { result := some title,
      state := { st with cache := cacheSet st.cache imdb_id ⟨title, now⟩ },
      performedLookup := true }
  | none => { result := none, state := st, performedLookup := true }

/-- `lookup_title` (src/utils/imdb_lookup.py:23-70).  The network fetch
plus `_extract_title_from_html` is abstracted as the oracle `fetch`; the
spec calls this operation `resolve_title`. -/
def lookup_title (st : IMDBLookupService) (now : Nat) (imdb_id : List Char)
    (fetch : Option (List Char)) : LookupOutcome :=
  if imdb_id.isEmpty || !("tt".toList.isPrefixOf imdb_id) then
    { result := none, state := st, performedLookup := false }
  else
    match cacheGet st.cache imdb_id with
    | some entry =>
      if now - entry.timestamp < st.cache_ttl then
        { result := some entry.title, state := st, performedLookup := false }
      else lookupFetch st now imdb_id fetch
    | none => lookupFetch st now imdb_id fetch

/-! ## Spec-side definitions (written from the specification's words, to
be compared with the definitions translated from the source) -/

/-- The relevance score as claim C1 words it: the base formula, `+10`
whenever the candidate's year equals the requested year, `+20` whenever
the candidate's external id equals the requested external id. -/
def claimedScoreC1 (r : SearchResult) (query : List Char) (year : Option Int)
    (imdb_id : Option (List Char)) : ℚ :=
  (if normalize_title r.title = normalize_title query then 100
   else if isSubstr (normalize_title query) (normalize_title r.title) ||
           isSubstr (normalize_title r.title) (normalize_title query) then 80
   else
     let query_words := (pySplitWs (normalize_title query)).toFinset
     let title_words := (pySplitWs (normalize_title r.title)).toFinset
     let overlap := (query_words ∩ title_words).card
     let total_words := (query_words ∪ title_words).card
     if 0 < total_words then ((overlap : ℚ) / (total_words : ℚ)) * 60 else 0)
    + (if year.isSome && (r.year == year) then 10 else 0)
    + (if imdb_id.isSome && (r.imdb_id == imdb_id) then 20 else 0)

/-- The relevance score as amended: the year boost requires a nonzero
requested year and the id boost a nonempty requested id (the code's
truthiness guards). -/
def claimedScoreAmended (r : SearchResult) (query : List Char) (year : Option Int)
    (imdb_id : Option (List Char)) : ℚ :=
  (if normalize_title r.title = normalize_title query then 100
   else if isSubstr (normalize_title query) (normalize_title r.title) ||
           isSubstr (normalize_title r.title) (normalize_title query) then 80
   else
     let query_words := (pySplitWs (normalize_title query)).toFinset
     let title_words := (pySplitWs (normalize_title r.title)).toFinset
     let overlap := (query_words ∩ title_words).card
     let total_words := (query_words ∪ title_words).card
     if 0 < total_words then ((overlap : ℚ) / (total_words : ℚ)) * 60 else 0)
    + (if year != none && year != some 0 && (r.year == year) then 10 else 0)
    + (if imdb_id != none && imdb_id != some [] && (r.imdb_id == imdb_id) then 20 else 0)

/-- Claim C6's acceptance test: a language code is accepted when some
requested token's lowercased original or canonical form equals it. -/
def claimAccepts (languages : List (List Char)) (code : List Char) : Bool :=
  languages.any (fun t =>
    code == lowerL t || code == dictGet lang_mapping (lowerL t) (lowerL t))

/-! ## Concrete fixtures used by the claims -/

/-- A bare `Avatar` candidate. -/
def avatarR : SearchResult := { title := "Avatar".toList }

/-- The `Avatar` candidate after ranking against the query `Avatar`. -/
def avatarScored : SearchResult := { title := "Avatar".toList, relevance_score := 100 }

/-- An `Avatar` candidate carrying year `0` (a falsy year in Python). -/
def avatarYear0 : SearchResult := { title := "Avatar".toList, year := some 0 }

/-- An `Avatar` candidate carrying the empty external id (falsy). -/
def avatarEmptyId : SearchResult := { title := "Avatar".toList, imdb_id := some [] }

/-- Payload `a.srt`, 100 bytes. -/
def payA : ExtractedPayload := { filename := "a.srt".toList, content := [], size := 100, encoding := [] }

/-- Payload `b.srt`, 500 bytes. -/
def payB : ExtractedPayload := { filename := "b.srt".toList, content := [], size := 500, encoding := [] }

/-- Payload `c.nfo`, 900 bytes. -/
def payC : ExtractedPayload := { filename := "c.nfo".toList, content := [], size := 900, encoding := [] }

/-- A subtitle record whose language code is `en`. -/
def enRecord : SubtitleInfo :=
  { subtitle_id := "1".toList, language := "en".toList,
    filename := "x.srt".toList, release_name := [] }

/-! ## Lemmas about the title normalizer -/

theorem toNat_ofNat_valid (n : Nat) (h : n < 0xd800) : (Char.ofNat n).toNat = n := by
  simp [Char.ofNat, Nat.isValidChar, h, Char.toNat, Char.ofNatAux, UInt32.toNat,
    BitVec.toNat_ofNatLt]

theorem pyToLower_idem (c : Char) : pyToLower (pyToLower c) = pyToLower c := by
  unfold pyToLower
  by_cases h : 'A' ≤ c ∧ c ≤ 'Z'
  · rw [if_pos h, if_neg]
    intro h2
    have ha : 65 ≤ c.toNat := h.1
    have hz : c.toNat ≤ 90 := h.2
    have h2' : (Char.ofNat (c.toNat + 32)).toNat ≤ 90 := h2.2
    rw [toNat_ofNat_valid _ (by omega)] at h2'
    omega
  · rw [if_neg h, if_neg h]

theorem space_not_word {c : Char} (h : pyIsSpace c = true) : pyIsWord c = false := by
  simp only [pyIsSpace, Bool.or_eq_true, beq_iff_eq] at h
  rcases h with ((((h | h) | h) | h) | h) | h <;> subst h <;> decide

theorem mem_collapseAux {c : Char} :
    ∀ (l : List Char) (b : Bool), c ∈ collapseAux l b →
      c = ' ' ∨ (c ∈ l ∧ pyIsSpace c = false)
  | [], b => by simp [collapseAux]
  | d :: ds, b => by
    intro h
    simp only [collapseAux] at h
    by_cases hd : pyIsSpace d = true
    · rw [if_pos hd] at h
      by_cases hb : b = true
      · subst hb
        simp only [if_pos rfl] at h
        rcases mem_collapseAux ds true h with h1 | h1
        · exact Or.inl h1
        · exact Or.inr ⟨List.mem_cons_of_mem _ h1.1, h1.2⟩
      · rw [Bool.not_eq_true] at hb
        subst hb
        simp only [Bool.false_eq_true, if_false, List.mem_cons] at h
        rcases h with h | h
        · exact Or.inl h
        · rcases mem_collapseAux ds true h with h1 | h1
          · exact Or.inl h1
          · exact Or.inr ⟨List.mem_cons_of_mem _ h1.1, h1.2⟩
    · rw [if_neg hd] at h
      rcases List.mem_cons.mp h with h | h
      · subst h
        exact Or.inr ⟨List.mem_cons_self _ _, Bool.eq_false_iff.mpr hd⟩
      · rcases mem_collapseAux ds false h with h1 | h1
        · exact Or.inl h1
        · exact Or.inr ⟨List.mem_cons_of_mem _ h1.1, h1.2⟩

theorem head_collapseAux_true {c : Char} :
    ∀ (l : List Char), (collapseAux l true).head? = some c → pyIsSpace c = false
  | [] => by simp [collapseAux]
  | d :: ds => by
    intro h
    simp only [collapseAux] at h
    by_cases hd : pyIsSpace d = true
    · rw [if_pos hd] at h
      simp only [if_true] at h
      exact head_collapseAux_true ds h
    · rw [if_neg hd] at h
      simp only [List.head?_cons, Option.some.injEq] at h
      subst h
      exact Bool.eq_false_iff.mpr hd

theorem noDoubleSpace_cons_of {c : Char} {l : List Char}
    (h1 : noDoubleSpace l = true)
    (h2 : ∀ d, l.head? = some d → ¬(c = ' ' ∧ d = ' ')) :
    noDoubleSpace (c :: l) = true := by
  cases l with
  | nil => rfl
  | cons d ds =>
    simp only [noDoubleSpace, Bool.and_eq_true, Bool.not_eq_true']
    refine ⟨?_, h1⟩
    have := h2 d rfl
    simp only [Bool.and_eq_false_iff, beq_eq_false_iff_ne, ne_eq]
    by_cases hc : c = ' '
    · exact Or.inr (fun hd => this ⟨hc, hd⟩)
    · exact Or.inl hc

theorem noDoubleSpace_collapseAux :
    ∀ (l : List Char) (b : Bool), noDoubleSpace (collapseAux l b) = true
  | [], _ => rfl
  | d :: ds, b => by
    simp only [collapseAux]
    by_cases hd : pyIsSpace d = true
    · rw [if_pos hd]
      by_cases hb : b = true
      · subst hb; simp only [if_pos rfl]
        exact noDoubleSpace_collapseAux ds true
      · rw [Bool.not_eq_true] at hb; subst hb
        simp only [Bool.false_eq_true, if_false]
        refine noDoubleSpace_cons_of (noDoubleSpace_collapseAux ds true) ?_
        intro e he hpair
        have := head_collapseAux_true ds he
        rw [hpair.2] at this
        simp [pyIsSpace] at this
    · rw [if_neg hd]
      refine noDoubleSpace_cons_of (noDoubleSpace_collapseAux ds false) ?_
      intro e _ hpair
      rw [hpair.1] at hd
      simp [pyIsSpace] at hd

theorem collapseAux_fix :
    ∀ (l : List Char) (b : Bool),
      (∀ c ∈ l, pyIsSpace c = true → c = ' ') →
      noDoubleSpace l = true →
      (b = true → l.head? ≠ some ' ') →
      collapseAux l b = l
  | [], _, _, _, _ => rfl
  | d :: ds, b, hsp, hnd, hhd => by
    simp only [collapseAux]
    by_cases hd : pyIsSpace d = true
    · have hd' : d = ' ' := hsp d (List.mem_cons_self _ _) hd
      subst hd'
      cases b with
      | true => exact absurd rfl (hhd rfl)
      | false =>
        simp only [if_pos hd, Bool.false_eq_true, if_false, List.cons.injEq, true_and]
        refine collapseAux_fix ds true (fun c hc => hsp c (List.mem_cons_of_mem _ hc))
          ?_ ?_
        · cases ds with
          | nil => rfl
          | cons e es =>
            simp only [noDoubleSpace, Bool.and_eq_true] at hnd
            exact hnd.2
        · intro _ hds
          cases ds with
          | nil => simp at hds
          | cons e es =>
            simp only [List.head?_cons, Option.some.injEq] at hds
            subst hds
            simp [noDoubleSpace] at hnd
    · rw [if_neg hd]
      have : collapseAux ds false = ds := by
        refine collapseAux_fix ds false (fun c hc => hsp c (List.mem_cons_of_mem _ hc))
          ?_ (by simp)
        cases ds with
        | nil => rfl
        | cons e es =>
          simp only [noDoubleSpace, Bool.and_eq_true] at hnd
          exact hnd.2
      rw [this]

theorem stripRight_cons (c : Char) (cs : List Char) :
    stripRight (c :: cs) =
      if (stripRight cs).isEmpty && pyIsSpace c then [] else c :: stripRight cs := rfl

theorem head_dropWhile {p : Char → Bool} {c : Char} :
    ∀ l : List Char, (l.dropWhile p).head? = some c → p c = false
  | [] => by simp
  | d :: ds => by
    intro h
    by_cases hd : p d = true
    · rw [List.dropWhile_cons_of_pos hd] at h
      exact head_dropWhile ds h
    · rw [List.dropWhile_cons_of_neg hd] at h
      simp only [List.head?_cons, Option.some.injEq] at h
      subst h
      exact Bool.eq_false_iff.mpr hd

theorem mem_stripRight {c : Char} : ∀ l : List Char, c ∈ stripRight l → c ∈ l
  | [] => by simp [stripRight]
  | d :: ds => by
    rw [stripRight_cons]
    intro h
    by_cases hcond : ((stripRight ds).isEmpty && pyIsSpace d) = true
    · rw [if_pos hcond] at h; simp at h
    · rw [if_neg hcond] at h
      rcases List.mem_cons.mp h with h | h
      · exact h ▸ List.mem_cons_self _ _
      · exact List.mem_cons_of_mem _ (mem_stripRight ds h)

theorem head?_stripRight :
    ∀ l : List Char, stripRight l = [] ∨ (stripRight l).head? = l.head?
  | [] => Or.inl rfl
  | d :: ds => by
    rw [stripRight_cons]
    by_cases hcond : ((stripRight ds).isEmpty && pyIsSpace d) = true
    · rw [if_pos hcond]; exact Or.inl rfl
    · rw [if_neg hcond]; exact Or.inr rfl

theorem getLast?_stripRight {c : Char} :
    ∀ l : List Char, (stripRight l).getLast? = some c → pyIsSpace c = false
  | [] => by simp [stripRight]
  | d :: ds => by
    rw [stripRight_cons]
    intro h
    by_cases hcond : ((stripRight ds).isEmpty && pyIsSpace d) = true
    · rw [if_pos hcond] at h; simp at h
    · rw [if_neg hcond] at h
      rcases he : stripRight ds with _ | ⟨e, es⟩
      · rw [he] at h
        simp only [List.getLast?_singleton, Option.some.injEq] at h
        subst h
        rw [he] at hcond
        simp only [List.isEmpty_nil, Bool.true_and] at hcond
        exact Bool.eq_false_iff.mpr hcond
      · rw [he] at h
        rw [List.getLast?_cons_cons] at h
        rw [← he] at h
        exact getLast?_stripRight ds h

theorem noDoubleSpace_tail {c : Char} {l : List Char}
    (h : noDoubleSpace (c :: l) = true) : noDoubleSpace l = true := by
  cases l with
  | nil => rfl
  | cons d ds =>
    simp only [noDoubleSpace, Bool.and_eq_true] at h
    exact h.2

theorem noDoubleSpace_dropWhile {p : Char → Bool} :
    ∀ l : List Char, noDoubleSpace l = true → noDoubleSpace (l.dropWhile p) = true
  | [] => fun _ => rfl
  | d :: ds => fun h => by
    by_cases hd : p d = true
    · rw [List.dropWhile_cons_of_pos hd]
      exact noDoubleSpace_dropWhile ds (noDoubleSpace_tail h)
    · rw [List.dropWhile_cons_of_neg hd]
      exact h

theorem noDoubleSpace_stripRight :
    ∀ l : List Char, noDoubleSpace l = true → noDoubleSpace (stripRight l) = true
  | [] => fun _ => rfl
  | d :: ds => fun h => by
    rw [stripRight_cons]
    by_cases hcond : ((stripRight ds).isEmpty && pyIsSpace d) = true
    · rw [if_pos hcond]; rfl
    · rw [if_neg hcond]
      refine noDoubleSpace_cons_of
        (noDoubleSpace_stripRight ds (noDoubleSpace_tail h)) ?_
      intro e he hpair
      rcases head?_stripRight ds with h0 | h0
      · rw [h0] at he; simp at he
      · rw [h0] at he
        cases ds with
        | nil => simp at he
        | cons f fs =>
          simp only [List.head?_cons, Option.some.injEq] at he
          subst he
          simp only [noDoubleSpace, Bool.and_eq_true, Bool.not_eq_true',
            Bool.and_eq_false_iff, beq_eq_false_iff_ne, ne_eq] at h
          rcases h.1 with h1 | h1
          · exact h1 hpair.1
          · exact h1 hpair.2

theorem dropWhile_fix {p : Char → Bool} {l : List Char}
    (h : ∀ c, l.head? = some c → p c = false) : l.dropWhile p = l := by
  cases l with
  | nil => rfl
  | cons d ds => exact List.dropWhile_cons_of_neg (by simp [h d rfl])

theorem stripRight_fix :
    ∀ l : List Char, (∀ c, l.getLast? = some c → pyIsSpace c = false) →
      stripRight l = l
  | [] => fun _ => rfl
  | d :: ds => fun h => by
    rw [stripRight_cons]
    cases hds : ds with
    | nil =>
      subst hds
      have hd : pyIsSpace d = false := h d (by simp)
      simp [stripRight, hd]
    | cons e es =>
      subst hds
      have hrec : stripRight (e :: es) = e :: es := by
        refine stripRight_fix (e :: es) ?_
        intro c hc
        refine h c ?_
        rw [List.getLast?_cons_cons]
        exact hc
      rw [hrec]
      simp only [List.isEmpty_cons, Bool.false_and, Bool.false_eq_true, if_false]

theorem map_fix {f : Char → Char} :
    ∀ l : List Char, (∀ c ∈ l, f c = c) → l.map f = l
  | [] => fun _ => rfl
  | d :: ds => fun h => by
    simp only [List.map_cons, List.cons.injEq]
    exact ⟨h d (List.mem_cons_self _ _),
      map_fix ds (fun c hc => h c (List.mem_cons_of_mem _ hc))⟩

theorem head?_mem_list {c : Char} {l : List Char} (h : l.head? = some c) :
    c ∈ l := by
  cases l with
  | nil => simp at h
  | cons d ds =>
    simp only [List.head?_cons, Option.some.injEq] at h
    exact h ▸ List.mem_cons_self _ _

theorem getLast?_mem_list {c : Char} :
    ∀ l : List Char, l.getLast? = some c → c ∈ l
  | [] => by simp
  | [d] => by
    intro h
    simp only [List.getLast?_singleton, Option.some.injEq] at h
    exact h ▸ List.mem_cons_self _ _
  | d :: e :: es => by
    intro h
    rw [List.getLast?_cons_cons] at h
    exact List.mem_cons_of_mem _ (getLast?_mem_list (e :: es) h)

theorem mem_dropWhile_imp {p : Char → Bool} {c : Char} :
    ∀ l : List Char, c ∈ l.dropWhile p → c ∈ l
  | [] => by simp
  | d :: ds => by
    intro h
    by_cases hd : p d = true
    · rw [List.dropWhile_cons_of_pos hd] at h
      exact List.mem_cons_of_mem _ (mem_dropWhile_imp ds h)
    · rw [List.dropWhile_cons_of_neg hd] at h
      exact h

theorem mem_subMap {t : List Char} {c : Char}
    (h : c ∈ (lowerL t).map (fun c => if pyIsWord c || pyIsSpace c then c else ' ')) :
    pyToLower c = c ∧ (pyIsWord c || pyIsSpace c) = true := by
  rcases List.mem_map.mp h with ⟨a, ha, hEq⟩
  rcases List.mem_map.mp ha with ⟨a0, _, hLow⟩
  have hfix : pyToLower a = a := hLow ▸ pyToLower_idem a0
  by_cases hcond : (pyIsWord a || pyIsSpace a) = true
  · rw [if_pos hcond] at hEq
    exact hEq ▸ ⟨hfix, hcond⟩
  · rw [if_neg hcond] at hEq
    subst hEq
    exact ⟨by decide, by decide⟩

theorem normalize_title_canonical (t : List Char) :
    (∀ c ∈ normalize_title t, c = ' ' ∨ (pyIsWord c = true ∧ pyToLower c = c)) ∧
    noDoubleSpace (normalize_title t) = true ∧
    (normalize_title t).head? ≠ some ' ' ∧
    (normalize_title t).getLast? ≠ some ' ' := by
  have hdef : normalize_title t =
      stripRight ((collapseWs ((lowerL t).map
        (fun c => if pyIsWord c || pyIsSpace c then c else ' '))).dropWhile pyIsSpace) := rfl
  refine ⟨?_, ?_, ?_, ?_⟩
  · intro c hc
    rw [hdef] at hc
    have hc1 := mem_dropWhile_imp _ (mem_stripRight _ hc)
    rcases mem_collapseAux _ _ hc1 with h | ⟨h2, h3⟩
    · exact Or.inl h
    · rcases mem_subMap h2 with ⟨hfix, hcond⟩
      rw [h3, Bool.or_false] at hcond
      exact Or.inr ⟨hcond, hfix⟩
  · rw [hdef]
    exact noDoubleSpace_stripRight _
      (noDoubleSpace_dropWhile _ (noDoubleSpace_collapseAux _ _))
  · rw [hdef]
    intro h
    rcases head?_stripRight ((collapseWs _).dropWhile pyIsSpace) with h0 | h0
    · rw [h0] at h; simp at h
    · rw [h0] at h
      have := head_dropWhile _ h
      simp [pyIsSpace] at this
  · rw [hdef]
    intro h
    have := getLast?_stripRight _ h
    simp [pyIsSpace] at this

theorem normalize_title_fixed {l : List Char}
    (hmem : ∀ c ∈ l, c = ' ' ∨ (pyIsWord c = true ∧ pyToLower c = c))
    (hnd : noDoubleSpace l = true)
    (hhd : l.head? ≠ some ' ')
    (hlast : l.getLast? ≠ some ' ') :
    normalize_title l = l := by
  have hnotspace : ∀ c ∈ l, c ≠ ' ' → pyIsSpace c = false := by
    intro c hc hne
    rcases hmem c hc with h | h
    · exact absurd h hne
    · by_cases hs : pyIsSpace c = true
      · rw [space_not_word hs] at h
        simp at h
      · exact Bool.not_eq_true _ ▸ hs
  have h1 : lowerL l = l := by
    refine map_fix l ?_
    intro c hc
    rcases hmem c hc with h | h
    · rw [h]; decide
    · exact h.2
  have h2 : l.map (fun c => if pyIsWord c || pyIsSpace c then c else ' ') = l := by
    refine map_fix l ?_
    intro c hc
    rcases hmem c hc with h | h
    · rw [h]; decide
    · rw [if_pos (by rw [h.1]; rfl)]
  have h3 : collapseWs l = l := by
    refine collapseAux_fix l false ?_ hnd (by simp)
    intro c hc hs
    by_cases hce : c = ' '
    · exact hce
    · rw [hnotspace c hc hce] at hs
      simp at hs
  have h4 : l.dropWhile pyIsSpace = l := by
    refine dropWhile_fix ?_
    intro c hc
    refine hnotspace c (head?_mem_list hc) ?_
    intro hce
    exact hhd (hce ▸ hc)
  have h5 : stripRight l = l := by
    refine stripRight_fix l ?_
    intro c hc
    refine hnotspace c (getLast?_mem_list l hc) ?_
    intro hce
    exact hlast (hce ▸ hc)
  show stripRight ((collapseAux ((lowerL l).map _) false).dropWhile pyIsSpace) = l
  rw [h1, h2]
  show stripRight ((collapseWs l).dropWhile pyIsSpace) = l
  rw [h3, h4, h5]

/-! ## Claims about the title normalizer -/

/-- C9: `normalize_title` is idempotent — normalizing an
already-normalized title changes nothing. -/
theorem normalize_title_idempotent (s : List Char) :
    normalize_title (normalize_title s) = normalize_title s := by
  obtain ⟨h1, h2, h3, h4⟩ := normalize_title_canonical s
  exact normalize_title_fixed h1 h2 h3 h4

/-- C8 as stated is false: the underscore is a `\w` character, so
`normalize_title` keeps it even though it is neither alphanumeric nor
whitespace — `normalize_title "a_b" = "a_b"`, whose output contains a
character that is not an alphanumeric or a space. -/
theorem normalize_title_underscore :
    normalize_title "a_b".toList = "a_b".toList ∧
    ¬(∀ c ∈ normalize_title "a_b".toList, Char.isAlphanum c = true ∨ c = ' ') := by
  decide

/-- C8 (amended): `normalize_title` lowercases its input, replaces every
character that is neither a word character (alphanumeric or underscore)
nor whitespace with a space, collapses whitespace runs and trims: every
output character is a lowercase-fixed word character or a space, no two
spaces are adjacent, and no space leads or trails the output. -/
theorem normalize_title_charset (s : List Char) :
    (∀ c ∈ normalize_title s, c = ' ' ∨ (pyIsWord c = true ∧ pyToLower c = c)) ∧
    noDoubleSpace (normalize_title s) = true ∧
    (normalize_title s).head? ≠ some ' ' ∧
    (normalize_title s).getLast? ≠ some ' ' :=
  normalize_title_canonical s

/-- Witness for the amended C8 at a concrete input. -/
theorem normalize_title_charset_witness :
    '_' = ' ' ∨ (pyIsWord '_' = true ∧ pyToLower '_' = '_') :=
  (normalize_title_charset "A_b!".toList).1 '_' (by decide)

/-! ## Lemmas about the ranking engine -/

theorem insertDesc_perm (r : SearchResult) :
    ∀ l : List SearchResult, (insertDesc r l).Perm (r :: l)
  | [] => List.Perm.refl _
  | x :: xs => by
    simp only [insertDesc]
    by_cases h : x.relevance_score ≤ r.relevance_score
    · rw [if_pos h]
    · rw [if_neg h]
      exact ((insertDesc_perm r xs).cons x).trans (List.Perm.swap r x xs)

theorem mem_insertDesc {y r : SearchResult} {l : List SearchResult} :
    y ∈ insertDesc r l ↔ y = r ∨ y ∈ l := by
  rw [(insertDesc_perm r l).mem_iff, List.mem_cons]

theorem insertDesc_sorted {r : SearchResult} :
    ∀ {l : List SearchResult},
      List.Pairwise (fun a b => b.relevance_score ≤ a.relevance_score) l →
      List.Pairwise (fun a b => b.relevance_score ≤ a.relevance_score)
        (insertDesc r l)
  | [], _ => by simp [insertDesc]
  | x :: xs, h => by
    simp only [insertDesc]
    rcases List.pairwise_cons.mp h with ⟨hx, hxs⟩
    by_cases hle : x.relevance_score ≤ r.relevance_score
    · rw [if_pos hle]
      refine List.pairwise_cons.mpr ⟨?_, h⟩
      intro y hy
      rcases List.mem_cons.mp hy with hy | hy
      · exact hy ▸ hle
      · exact le_trans (hx y hy) hle
    · rw [if_neg hle]
      refine List.pairwise_cons.mpr ⟨?_, insertDesc_sorted hxs⟩
      intro y hy
      rcases mem_insertDesc.mp hy with hy | hy
      · exact hy ▸ le_of_lt (lt_of_not_le hle)
      · exact hx y hy

theorem filter_insertDesc (s : ℚ) (r : SearchResult) :
    ∀ l : List SearchResult,
      (insertDesc r l).filter (fun x => x.relevance_score == s)
        = if r.relevance_score == s
          then r :: l.filter (fun x => x.relevance_score == s)
          else l.filter (fun x => x.relevance_score == s)
  | [] => by
    by_cases hr : (r.relevance_score == s) = true
    · simp [insertDesc, List.filter, hr]
    · simp [insertDesc, List.filter, hr]
  | x :: xs => by
    simp only [insertDesc]
    by_cases hle : x.relevance_score ≤ r.relevance_score
    · rw [if_pos hle]
      by_cases hr : (r.relevance_score == s) = true
      · rw [if_pos hr]
        simp [List.filter_cons, hr]
      · rw [if_neg hr]
        simp [List.filter_cons, hr]
    · rw [if_neg hle]
      by_cases hr : (r.relevance_score == s) = true
      · have hx : (x.relevance_score == s) = false := by
          rw [beq_eq_false_iff_ne]
          intro hxe
          rw [beq_iff_eq] at hr
          exact hle (le_of_eq (hxe.trans hr.symm))
        simp [List.filter_cons, filter_insertDesc s r xs, hx, hr]
      · have hrf : (r.relevance_score == s) = false := by
          simp only [Bool.not_eq_true] at hr
          exact hr
        simp [List.filter_cons, filter_insertDesc s r xs, hrf]

theorem sortDesc_perm : ∀ l : List SearchResult, (sortDesc l).Perm l
  | [] => List.Perm.refl _
  | x :: xs => (insertDesc_perm x (sortDesc xs)).trans ((sortDesc_perm xs).cons x)

theorem sortDesc_sorted :
    ∀ l : List SearchResult,
      List.Pairwise (fun a b => b.relevance_score ≤ a.relevance_score) (sortDesc l)
  | [] => List.Pairwise.nil
  | _ :: xs => insertDesc_sorted (sortDesc_sorted xs)

theorem sortDesc_stable (s : ℚ) :
    ∀ l : List SearchResult,
      (sortDesc l).filter (fun x => x.relevance_score == s)
        = l.filter (fun x => x.relevance_score == s)
  | [] => rfl
  | x :: xs => by
    show ((insertDesc x (sortDesc xs)).filter _) = _
    rw [filter_insertDesc, List.filter_cons, sortDesc_stable s xs]

theorem scoreFilter_eq_some {q : List Char} {y : Option Int}
    {e k : Option (List Char)} {r r' : SearchResult}
    (h : scoreFilter q y e k r = some r') :
    survives r y e k = true ∧ 30 ≤ computeScore r q y e ∧
      r' = { r with relevance_score := computeScore r q y e } := by
  simp only [scoreFilter] at h
  by_cases hs : survives r y e k = true
  · rw [if_pos hs] at h
    by_cases h30 : (30:ℚ) ≤ computeScore r q y e
    · rw [if_pos h30] at h
      simp only [Option.some.injEq] at h
      exact ⟨hs, h30, h.symm⟩
    · rw [if_neg h30] at h
      simp at h
  · rw [if_neg hs] at h
    simp at h

theorem core_scoreFilter {q : List Char} {y : Option Int}
    {e k : Option (List Char)} {r r' : SearchResult}
    (h : scoreFilter q y e k r = some r') : core r' = core r := by
  rcases scoreFilter_eq_some h with ⟨_, _, h3⟩
  rw [h3]
  rfl

theorem rankFiltered_core_sublist (q : List Char) (y : Option Int)
    (e k : Option (List Char)) :
    ∀ l : List SearchResult,
      ((rankFiltered l q y e k).map core).Sublist (l.map core)
  | [] => List.Sublist.refl _
  | x :: xs => by
    simp only [rankFiltered, List.filterMap_cons]
    cases h : scoreFilter q y e k x with
    | none =>
      exact (rankFiltered_core_sublist q y e k xs).cons _
    | some r' =>
      simp only [List.map_cons]
      rw [core_scoreFilter h]
      exact (rankFiltered_core_sublist q y e k xs).cons₂ _

theorem baseScore_self (l : List Char) : baseScore l l = 100 := by
  simp [baseScore]

theorem computeScore_none_none (r : SearchResult) (q : List Char) :
    computeScore r q none none
      = baseScore (normalize_title r.title) (normalize_title q) := by
  simp [computeScore, optIntTruthy, optStrTruthy]

theorem scoreFilter_avatar :
    scoreFilter "Avatar".toList none none none avatarR = some avatarScored := by
  have hs : survives avatarR none none none = true := by decide
  have hc : computeScore avatarR "Avatar".toList none none = 100 := by
    rw [computeScore_none_none]
    exact baseScore_self _
  simp only [scoreFilter, hs, if_true, hc]
  rw [if_pos (by norm_num : (30:ℚ) ≤ 100)]
  rfl

theorem rank_avatar_eval :
    rank [avatarR] "Avatar".toList none none none = [avatarScored] := by
  show (if ([avatarR] : List SearchResult).isEmpty then []
    else sortDesc (rankFiltered [avatarR] "Avatar".toList none none none))
      = [avatarScored]
  rw [if_neg (by simp)]
  unfold rankFiltered
  simp only [List.filterMap_cons, scoreFilter_avatar, List.filterMap_nil]
  rfl

/-! ## Claims about the ranking engine -/

/-- C2: every ranked candidate scores at least 30, the output is sorted
in non-increasing score order, and candidates of equal score keep their
relative input order (the order of `rankFiltered`, the filtered list in
input order). -/
theorem rank_floor_sorted_stable (results : List SearchResult) (q : List Char)
    (y : Option Int) (e k : Option (List Char)) :
    (∀ r ∈ rank results q y e k, 30 ≤ r.relevance_score) ∧
    List.Pairwise (fun a b => b.relevance_score ≤ a.relevance_score)
      (rank results q y e k) ∧
    (∀ s : ℚ, (rank results q y e k).filter (fun x => x.relevance_score == s)
        = (rankFiltered results q y e k).filter (fun x => x.relevance_score == s)) := by
  unfold rank
  by_cases hres : results.isEmpty = true
  · rw [if_pos hres]
    have hnil : results = [] := by
      cases results with
      | nil => rfl
      | cons a as => simp at hres
    subst hnil
    exact ⟨by simp, by simp, fun s => rfl⟩
  · rw [if_neg hres]
    refine ⟨?_, sortDesc_sorted _, fun s => sortDesc_stable s _⟩
    intro r hr
    have hmem := (sortDesc_perm _).mem_iff.mp hr
    rcases List.mem_filterMap.mp hmem with ⟨r0, _, hf⟩
    rcases scoreFilter_eq_some hf with ⟨_, h30, hr'⟩
    rw [hr']
    exact h30

/-- Witness for C2 at a concrete ranked candidate. -/
theorem rank_floor_witness : (30:ℚ) ≤ avatarScored.relevance_score :=
  (rank_floor_sorted_stable [avatarR] "Avatar".toList none none none).1
    avatarScored (by rw [rank_avatar_eval]; exact List.mem_singleton_self _)

/-- C1 as stated is false: the relevance boosts are guarded by Python
truthiness, so a candidate whose year equals a requested year `0`, or
whose external id equals a requested empty external id, gets no boost
even though the claimed formula adds one. -/
theorem rank_score_truthiness_counterexample :
    survives avatarYear0 (some 0) none none = true ∧
    computeScore avatarYear0 "Avatar".toList (some 0) none = 100 ∧
    claimedScoreC1 avatarYear0 "Avatar".toList (some 0) none = 110 ∧
    survives avatarEmptyId none (some []) none = true ∧
    computeScore avatarEmptyId "Avatar".toList none (some []) = 100 ∧
    claimedScoreC1 avatarEmptyId "Avatar".toList none (some []) = 120 := by
  refine ⟨by decide, ?_, ?_, by decide, ?_, ?_⟩
  · have hb : baseScore (normalize_title avatarYear0.title)
        (normalize_title "Avatar".toList) = 100 := baseScore_self _
    simp only [computeScore, optIntTruthy, optStrTruthy, hb, bne_self_eq_false,
      Bool.false_and, Bool.false_eq_true, if_false]
    norm_num
  · norm_num [claimedScoreC1, avatarYear0]
  · have hb : baseScore (normalize_title avatarEmptyId.title)
        (normalize_title "Avatar".toList) = 100 := baseScore_self _
    simp only [computeScore, optIntTruthy, optStrTruthy, hb]
    norm_num
  · norm_num [claimedScoreC1, avatarEmptyId]

/-- C1 (amended): a surviving candidate's relevance score is the claimed
base formula, `+10` when a nonzero year is requested and matched
exactly, `+20` when a nonempty external id is requested and matched
exactly; and ranking the single candidate `Avatar` against the query
`Avatar` scores it 100. -/
theorem rank_relevance_score (r : SearchResult) (q : List Char)
    (y : Option Int) (e k : Option (List Char))
    (hs : survives r y e k = true) :
    computeScore r q y e = claimedScoreAmended r q y e ∧
    rank [avatarR] "Avatar".toList none none none = [avatarScored] := by
  refine ⟨?_, rank_avatar_eval⟩
  have hy : (optIntTruthy y && (r.year == y))
      = (y != none && y != some 0 && (r.year == y)) := by
    cases y with
    | none => rfl
    | some n =>
      by_cases hn : n = 0
      · subst hn
        simp [optIntTruthy]
      · simp [optIntTruthy, bne, hn]
  have he : (optStrTruthy e && (r.imdb_id == e))
      = (e != none && e != some [] && (r.imdb_id == e)) := by
    cases e with
    | none => rfl
    | some sl =>
      cases sl with
      | nil => simp [optStrTruthy]
      | cons a as => simp [optStrTruthy]
  simp only [computeScore, claimedScoreAmended, baseScore, hy, he]

/-- Witness for the amended C1 at a concrete surviving candidate. -/
theorem rank_relevance_score_witness :
    computeScore avatarYear0 "Avatar".toList (some 2009) none
      = claimedScoreAmended avatarYear0 "Avatar".toList (some 2009) none :=
  (rank_relevance_score avatarYear0 "Avatar".toList (some 2009) none none
    (by decide)).1

/-- C10 as stated is false: ranking never deduplicates — a duplicated
input candidate is scored and returned twice. -/
theorem rank_dedup_counterexample :
    rank [avatarR, avatarR] "Avatar".toList none none none
      = [avatarScored, avatarScored] ∧
    ¬(rank [avatarR, avatarR] "Avatar".toList none none none).Nodup := by
  have h : rank [avatarR, avatarR] "Avatar".toList none none none
      = [avatarScored, avatarScored] := by
    show (if ([avatarR, avatarR] : List SearchResult).isEmpty then []
      else sortDesc (rankFiltered [avatarR, avatarR] "Avatar".toList none none none))
        = [avatarScored, avatarScored]
    rw [if_neg (by simp)]
    unfold rankFiltered
    simp only [List.filterMap_cons, scoreFilter_avatar, List.filterMap_nil]
    show insertDesc avatarScored (insertDesc avatarScored []) = _
    simp only [insertDesc]
    rw [if_pos le_rfl]
  refine ⟨h, ?_⟩
  rw [h]
  intro hnd
  exact (List.nodup_cons.mp hnd).1 (List.mem_singleton_self _)

/-- C10 (amended): ranking returns a subset of the input — every output
candidate is an input candidate unchanged apart from its attached
`relevance_score`, and no input candidate occurs more often in the
output than in the input. -/
theorem rank_subset (results : List SearchResult) (q : List Char)
    (y : Option Int) (e k : Option (List Char)) :
    (∀ rr ∈ rank results q y e k, ∃ r ∈ results, core r = core rr) ∧
    (∀ t, ((rank results q y e k).map core).count t
        ≤ (results.map core).count t) := by
  unfold rank
  by_cases hres : results.isEmpty = true
  · rw [if_pos hres]
    exact ⟨by simp, fun t => by simp⟩
  · rw [if_neg hres]
    constructor
    · intro rr hrr
      have hmem := (sortDesc_perm _).mem_iff.mp hrr
      rcases List.mem_filterMap.mp hmem with ⟨r0, hr0, hf⟩
      exact ⟨r0, hr0, (core_scoreFilter hf).symm⟩
    · intro t
      have hperm := ((sortDesc_perm (rankFiltered results q y e k)).map core).count_eq t
      rw [hperm]
      exact (rankFiltered_core_sublist q y e k results).count_le t

/-- Witness for the amended C10 at a concrete ranked candidate. -/
theorem rank_subset_witness :
    ∃ r ∈ [avatarR], core r = core avatarScored :=
  (rank_subset [avatarR] "Avatar".toList none none none).1 avatarScored
    (by rw [rank_avatar_eval]; exact List.mem_singleton_self _)

/-- C7: ranking and language filtering of an empty list return the empty
list, while selecting from an empty payload list signals
`NoSubtitleFound`. -/
theorem empty_inputs_safe (q : List Char) (y : Option Int)
    (e k : Option (List Char)) (langs : List (List Char))
    (pref : Option (List Char)) :
    rank [] q y e k = [] ∧
    filter_by_language [] langs = [] ∧
    select_best [] pref = Except.error DownloadError.noSubtitleFound := by
  refine ⟨rfl, ?_, rfl⟩
  cases langs with
  | nil => rfl
  | cons a as => rfl

/-! ## Lemmas about archive payload selection -/

theorem maxBySize_spec :
    ∀ (rest : List ExtractedPayload) (f : ExtractedPayload),
      maxBySize f rest ∈ f :: rest ∧
      ∀ x ∈ f :: rest, x.size ≤ (maxBySize f rest).size
  | [], f => by
    refine ⟨List.mem_cons_self _ _, ?_⟩
    intro x hx
    rcases List.mem_cons.mp hx with h | h
    · exact h ▸ le_refl _
    · simp at h
  | y :: ys, f => by
    have hstep : maxBySize f (y :: ys)
        = maxBySize (if f.size < y.size then y else f) ys := rfl
    rcases maxBySize_spec ys (if f.size < y.size then y else f) with ⟨hmem, hbound⟩
    constructor
    · rw [hstep]
      by_cases hc : f.size < y.size
      · rw [if_pos hc]
        rw [if_pos hc] at hmem
        rcases List.mem_cons.mp hmem with h | h
        · rw [h]
          exact List.mem_cons_of_mem _ (List.mem_cons_self _ _)
        · exact List.mem_cons_of_mem _ (List.mem_cons_of_mem _ h)
      · rw [if_neg hc]
        rw [if_neg hc] at hmem
        rcases List.mem_cons.mp hmem with h | h
        · rw [h]
          exact List.mem_cons_self _ _
        · exact List.mem_cons_of_mem _ (List.mem_cons_of_mem _ h)
    · intro x hx
      rw [hstep]
      have hsel : x.size ≤ (if f.size < y.size then y else f).size →
          x.size ≤ (maxBySize (if f.size < y.size then y else f) ys).size :=
        fun hle => le_trans hle (hbound _ (List.mem_cons_self _ _))
      rcases List.mem_cons.mp hx with h | h
      · refine hsel ?_
        by_cases hc : f.size < y.size
        · rw [if_pos hc]; exact h ▸ le_of_lt hc
        · rw [if_neg hc]; exact h ▸ le_refl _
      · rcases List.mem_cons.mp h with h2 | h2
        · refine hsel ?_
          by_cases hc : f.size < y.size
          · rw [if_pos hc]; exact h2 ▸ le_refl _
          · rw [if_neg hc]; exact h2 ▸ le_of_not_lt hc
        · exact hbound x (List.mem_cons_of_mem _ h2)

theorem selectBestSubtitle_of_ne (f : ExtractedPayload)
    (rest : List ExtractedPayload) (pref : Option (List Char))
    (h : rest ≠ []) :
    selectBestSubtitle f rest pref =
      (let bySize :=
        match (f :: rest).filter
            (fun s => endsWithL ".srt".toList (lowerL s.filename)) with
        | s :: ss => maxBySize s ss
        | [] => maxBySize f rest
      match pref with
      | some p =>
        if p.isEmpty then bySize
        else
          match preferredMatch (f :: rest) p with
          | some sub => sub
          | none => bySize
      | none => bySize) := by
  cases rest with
  | nil => exact absurd rfl h
  | cons a as => rfl

/-! ## Claims about archive payload selection -/

/-- C3 as stated is false: Python treats the empty string as a falsy
`preferred_filename`, so an empty preferred name — whose lowercased form
is a substring of every filename — is ignored instead of selecting the
first payload: with payloads `[a.srt(100), b.srt(500)]` and preferred
name `""`, the code returns `b.srt`, not the first matching payload
`a.srt`. -/
theorem select_best_empty_preferred_counterexample :
    selectBestSubtitle payA [payB] (some []) = payB ∧
    isSubstr (lowerL []) (lowerL payA.filename) = true ∧
    payB ≠ payA := by
  decide

/-- C3 (amended): on a non-empty payload list, first match wins among:
a single payload is returned as is; a supplied *non-empty* preferred
filename whose lowercased form occurs in some payload's lowercased
filename selects the first such payload; otherwise the largest
`.srt`-named payload; otherwise the largest payload overall.  In
particular `[a.srt(100), b.srt(500), c.nfo(900)]` with no preferred name
selects `b.srt`. -/
theorem select_best_rules (f : ExtractedPayload) (rest : List ExtractedPayload)
    (pref : Option (List Char)) :
    (select_best (f :: rest) pref
        = Except.ok (selectBestSubtitle f rest pref)) ∧
    (rest = [] → selectBestSubtitle f rest pref = f) ∧
    (∀ p x, rest ≠ [] → pref = some p → p ≠ [] →
      preferredMatch (f :: rest) p = some x →
      selectBestSubtitle f rest pref = x) ∧
    (∀ s ss, rest ≠ [] →
      (∀ p, pref = some p → p ≠ [] → preferredMatch (f :: rest) p = none) →
      (f :: rest).filter (fun u => endsWithL ".srt".toList (lowerL u.filename))
        = s :: ss →
      selectBestSubtitle f rest pref ∈ s :: ss ∧
      ∀ x ∈ s :: ss, x.size ≤ (selectBestSubtitle f rest pref).size) ∧
    (rest ≠ [] →
      (∀ p, pref = some p → p ≠ [] → preferredMatch (f :: rest) p = none) →
      (f :: rest).filter (fun u => endsWithL ".srt".toList (lowerL u.filename))
        = [] →
      selectBestSubtitle f rest pref ∈ f :: rest ∧
      ∀ x ∈ f :: rest, x.size ≤ (selectBestSubtitle f rest pref).size) ∧
    selectBestSubtitle payA [payB, payC] none = payB := by
  refine ⟨rfl, ?_, ?_, ?_, ?_, by decide⟩
  · intro h
    subst h
    rfl
  · intro p x hrest hp hpne hmatch
    subst hp
    rw [selectBestSubtitle_of_ne f rest _ hrest]
    have hpe : p.isEmpty = false := by
      cases p with
      | nil => exact absurd rfl hpne
      | cons b bs => rfl
    simp only [hpe, Bool.false_eq_true, if_false, hmatch]
  · intro s ss hrest hnopref hfilter
    rw [selectBestSubtitle_of_ne f rest pref hrest]
    simp only [hfilter]
    cases pref with
    | none => exact maxBySize_spec ss s
    | some p =>
      by_cases hpe : p = []
      · subst hpe
        simp only [List.isEmpty_nil, if_true]
        exact maxBySize_spec ss s
      · have hpe' : p.isEmpty = false := by
          cases p with
          | nil => exact absurd rfl hpe
          | cons b bs => rfl
        simp only [hpe', Bool.false_eq_true, if_false, hnopref p rfl hpe]
        exact maxBySize_spec ss s
  · intro hrest hnopref hfilter
    rw [selectBestSubtitle_of_ne f rest pref hrest]
    simp only [hfilter]
    cases pref with
    | none => exact maxBySize_spec rest f
    | some p =>
      by_cases hpe : p = []
      · subst hpe
        simp only [List.isEmpty_nil, if_true]
        exact maxBySize_spec rest f
      · have hpe' : p.isEmpty = false := by
          cases p with
          | nil => exact absurd rfl hpe
          | cons b bs => rfl
        simp only [hpe', Bool.false_eq_true, if_false, hnopref p rfl hpe]
        exact maxBySize_spec rest f

/-- Witness for the amended C3: a singleton payload list returns its only
payload. -/
theorem select_best_rules_witness : selectBestSubtitle payA [] none = payA :=
  (select_best_rules payA [] none).2.1 rfl

/-! ## Lemmas about the language filter -/

theorem contains_normalizedLangs (code : List Char) :
    ∀ languages : List (List Char),
      (normalizedLangs languages).contains code = claimAccepts languages code
  | [] => rfl
  | t :: ts => by
    have ih := contains_normalizedLangs code ts
    show (dictGet lang_mapping (lowerL t) (lowerL t) :: lowerL t ::
        normalizedLangs ts).contains code = claimAccepts (t :: ts) code
    simp only [List.contains_cons, claimAccepts, List.any_cons]
    rw [show (normalizedLangs ts).contains code = claimAccepts ts code from ih]
    simp only [claimAccepts]
    cases code == lowerL t <;>
      cases code == dictGet lang_mapping (lowerL t) (lowerL t) <;> simp

/-! ## Claims about the language filter -/

/-- C6: with a non-empty request list a record is kept iff its lowercased
language code equals, for some requested token, the token's lowercased
form or its canonical form under the alias table; an empty request list
keeps everything; the table maps `eng`, `fre`, `ger`, `spa` to `en`,
`fr`, `de`, `es`; and requesting `eng` returns a record tagged `en`. -/
theorem filter_by_language_spec (subs : List SubtitleInfo)
    (langs : List (List Char)) :
    (langs = [] → filter_by_language subs langs = subs) ∧
    (langs ≠ [] → filter_by_language subs langs
        = subs.filter (fun sub => claimAccepts langs (lowerL sub.language))) ∧
    dictGet lang_mapping "eng".toList "eng".toList = "en".toList ∧
    dictGet lang_mapping "fre".toList "fre".toList = "fr".toList ∧
    dictGet lang_mapping "ger".toList "ger".toList = "de".toList ∧
    dictGet lang_mapping "spa".toList "spa".toList = "es".toList ∧
    filter_by_language [enRecord] ["eng".toList] = [enRecord] := by
  refine ⟨?_, ?_, by decide, by decide, by decide, by decide, by decide⟩
  · intro h
    subst h
    rfl
  · intro h
    cases langs with
    | nil => exact absurd rfl h
    | cons a as =>
      show List.filter _ subs = List.filter _ subs
      refine List.filter_congr ?_
      intro x _
      exact contains_normalizedLangs (lowerL x.language) (a :: as)

/-- Witness for C6: the empty request list filters nothing. -/
theorem filter_by_language_spec_witness :
    filter_by_language [enRecord] [] = [enRecord] :=
  (filter_by_language_spec [enRecord] []).1 rfl

/-! ## Claims about subtitle content decoding -/

/-- C4: decoding always succeeds inside the encoding chain — some
encoding in the fixed ordered list (at the latest `latin1`, which is
total) decodes every byte string, and `decode_and_normalize` returns the
normalisation of the first successful decode; the
replacement-character fallback is never reached and the function is
total. -/
theorem decode_and_normalize_total (bs : List Byte) :
    ∃ cs, firstDecode encodingChain bs = some cs ∧
      decode_and_normalize bs = normalizeSubtitleContent cs := by
  have hfirst : ∃ cs, firstDecode encodingChain bs = some cs := by
    show ∃ cs, firstDecode (.utf8 :: .utf8sig :: .latin1 ::
      [.cp1252, .iso8859_1, .windows1252]) bs = some cs
    simp only [firstDecode, decodeWith]
    cases h1 : utf8Decode bs with
    | some cs => exact ⟨cs, rfl⟩
    | none =>
      cases h2 : utf8SigDecode bs with
      | some cs => exact ⟨cs, rfl⟩
      | none =>
        rw [show latin1Decode bs
          = some (bs.map (fun b => Char.ofNat b.val)) from rfl]
        exact ⟨bs.map (fun b => Char.ofNat b.val), rfl⟩
  rcases hfirst with ⟨cs, hcs⟩
  refine ⟨cs, hcs, ?_⟩
  unfold decode_and_normalize
  rw [hcs]

/-! ## Lemmas about the IMDB title cache -/

theorem cacheGet_set (m : List (List Char × CacheEntry)) (k : List Char)
    (v : CacheEntry) : cacheGet (cacheSet m k v) k = some v := by
  simp [cacheGet, cacheSet, List.find?_cons]

/-! ## Claims about the IMDB title cache -/

/-- C5: starting from a state where a well-formed id is uncached, a
successful resolution performs the external lookup and caches the title;
a second call within the TTL performs no lookup and returns the cached
title, while a call at or past the TTL performs a fresh lookup; a failed
resolution performs the lookup but caches nothing, so the next call
looks up again.  The freshly constructed service has an empty cache and
the default TTL of 3600 seconds. -/
theorem resolve_title_cache (st : IMDBLookupService) (id title : List Char)
    (t1 t2 : Nat) (fetch2 : Option (List Char))
    (hid : "tt".toList.isPrefixOf id = true)
    (hmiss : cacheGet st.cache id = none) :
    ((lookup_title st t1 id (some title)).performedLookup = true ∧
     (lookup_title st t1 id (some title)).result = some title ∧
     (t2 - t1 < st.cache_ttl →
       (lookup_title (lookup_title st t1 id (some title)).state t2 id
          fetch2).performedLookup = false ∧
       (lookup_title (lookup_title st t1 id (some title)).state t2 id
          fetch2).result = some title) ∧
     (st.cache_ttl ≤ t2 - t1 →
       (lookup_title (lookup_title st t1 id (some title)).state t2 id
          fetch2).performedLookup = true)) ∧
    ((lookup_title st t1 id none).state = st ∧
     (lookup_title st t1 id none).performedLookup = true ∧
     (lookup_title (lookup_title st t1 id none).state t2 id
        fetch2).performedLookup = true) ∧
    initService.cache_ttl = 3600 ∧ initService.cache = [] := by
  have hg : ¬((id.isEmpty || !("tt".toList.isPrefixOf id)) = true) := by
    cases id with
    | nil => simp [List.isPrefixOf] at hid
    | cons c cs =>
      rw [hid]
      simp
  have h1 : lookup_title st t1 id (some title)
      = { result := some title,
          state := { st with cache := cacheSet st.cache id ⟨title, t1⟩ },
          performedLookup := true } := by
    unfold lookup_title
    rw [if_neg hg, hmiss]
    rfl
  have h3 : lookup_title st t1 id none
      = { result := none, state := st, performedLookup := true } := by
    unfold lookup_title
    rw [if_neg hg, hmiss]
    rfl
  have h2cached : ∀ f2 : Option (List Char),
      lookup_title { st with cache := cacheSet st.cache id ⟨title, t1⟩ } t2 id f2
        = if t2 - t1 < st.cache_ttl
          then { result := some title,
                 state := { st with cache := cacheSet st.cache id ⟨title, t1⟩ },
                 performedLookup := false }
          else lookupFetch { st with cache := cacheSet st.cache id ⟨title, t1⟩ }
                 t2 id f2 := by
    intro f2
    unfold lookup_title
    rw [if_neg hg, cacheGet_set]
  refine ⟨⟨by rw [h1], by rw [h1], ?_, ?_⟩, ⟨by rw [h3], by rw [h3], ?_⟩, rfl, rfl⟩
  · intro hlt
    rw [h1]
    show (lookup_title { st with cache := cacheSet st.cache id ⟨title, t1⟩ }
        t2 id fetch2).performedLookup = false ∧
      (lookup_title { st with cache := cacheSet st.cache id ⟨title, t1⟩ }
        t2 id fetch2).result = some title
    rw [h2cached fetch2, if_pos hlt]
    exact ⟨rfl, rfl⟩
  · intro hge
    rw [h1]
    show (lookup_title { st with cache := cacheSet st.cache id ⟨title, t1⟩ }
        t2 id fetch2).performedLookup = true
    rw [h2cached fetch2, if_neg (Nat.not_lt.mpr hge)]
    cases fetch2 <;> rfl
  · rw [h3]
    show (lookup_title st t2 id fetch2).performedLookup = true
    unfold lookup_title
    rw [if_neg hg, hmiss]
    cases fetch2 <;> rfl

/-- Witness for C5: a concrete first lookup on a fresh service performs
the external call. -/
theorem resolve_title_cache_witness :
    (lookup_title initService 0 "tt123".toList
      (some "X".toList)).performedLookup = true :=
  (resolve_title_cache initService "tt123".toList "X".toList 0 10 none
    (by decide) rfl).1.1

end OpenSubs

namespace OpenSubs

example : normalize_title "  The   Matrix!! ".toList = "the matrix".toList := by decide

example : normalize_title "a_b".toList = "a_b".toList := by decide

example : pySplitWs "the  matrix ".toList = ["the".toList, "matrix".toList] := by decide

example : isSubstr "avatar".toList "avatar the way of water".toList = true := by decide

example : endsWithL ".srt".toList "b.srt".toList = true := by decide

end OpenSubs
